import Mathlib

/-!
Shallow embedding of the grocery-aisle product finder demo service.

Python strings are modelled as lists of natural-number codepoints; the
helper `str` converts a Lean string literal into that representation.
Python floats are modelled as rationals.  Randomness is modelled by an
explicit entropy stream passed to the functions that draw random values.
-/

namespace Grocery

/-- Codepoint-list representation of a Python string. -/
def str (s : String) : List Nat := s.toList.map Char.toNat

/-- ASCII whitespace predicate used by the model of Python str.strip. -/
def isSpace (c : Nat) : Bool := c = 32 || c = 9 || c = 10 || c = 13 || c = 11 || c = 12

/-- Model of Python str.lower on a single ASCII codepoint. -/
def lowerChar (c : Nat) : Nat := if 65 ≤ c ∧ c ≤ 90 then c + 32 else c

/-- Model of Python str.lower. -/
def pyLower (s : List Nat) : List Nat := s.map lowerChar

/-- Model of Python str.strip with no argument: drop whitespace from both ends. -/
def pyStrip (s : List Nat) : List Nat :=
  ((s.dropWhile isSpace).reverse.dropWhile isSpace).reverse

/-- The name normalisation applied by ProductDatabase.lookup in
app/services/database.py: product_name.strip().lower(). -/
def normalizeName (s : List Nat) : List Nat := pyLower (pyStrip s)

/-- Round-half-to-even on rationals, the tie-breaking rule of Python round. -/
def roundHalfEven (q : ℚ) : ℤ :=
  if q - ⌊q⌋ < 1/2 then ⌊q⌋
  else if 1/2 < q - ⌊q⌋ then ⌊q⌋ + 1
  else if Even ⌊q⌋ then ⌊q⌋ else ⌊q⌋ + 1

/-- Model of Python round(x, 2). -/
def pyRound2 (q : ℚ) : ℚ := (roundHalfEven (q * 100) : ℚ) / 100

/-- Model of random.uniform(a, b): a + (b - a) * u where u is the raw
uniform draw from the entropy stream, a rational in the unit interval. -/
def pyUniform (a b u : ℚ) : ℚ := a + (b - a) * u

/-- Model of random.randint(lo, hi) on naturals: returns a value of
[lo, hi] determined by the entropy value e, and fails (Python raises
ValueError) when the range is empty. -/
def pyRandint (lo hi : Nat) (e : Nat) : Option Nat :=
  if lo ≤ hi then some (lo + e % (hi + 1 - lo)) else none

/-- A decoded PIL image: dimensions plus a pixel map. -/
structure Image where
  width : Nat
  height : Nat
  pixels : Nat → Nat → Nat

/-- The stub classifier of app/model.py: predict always returns the label
"banana" with confidence 0.95, ignoring the image. -/
def stubPredict (_img : Image) : List Nat × ℚ := (str "banana", 95/100)

/-- classify_image from app/services/vision.py: runs the module-level
classifier instance, which is the stub ProductClassifier of app/model.py. -/
def classify_image (img : Image) : List Nat × ℚ := stubPredict img

/-- Simulated detection record from fake_multi_detections. -/
structure Detection where
  label : List Nat
  confidence : ℚ
  bbox : List Nat
deriving DecidableEq, Repr

/-- Entropy source: one rational stream for random.uniform draws and one
natural stream for random.randint draws. -/
structure Rng where
  uniforms : Nat → ℚ
  ints : Nat → Nat

/-- The raw uniform draws all lie in the unit interval. -/
def ValidRng (r : Rng) : Prop := ∀ k, 0 ≤ r.uniforms k ∧ r.uniforms k ≤ 1

/-- labels_pool from fake_multi_detections. -/
def labelsPool (base : List Nat) : List (List Nat) :=
  [base, str "banana", str "apple", str "cereal", str "milk"]

/-- Order-preserving deduplication loop of fake_multi_detections. -/
def dedup (seen : List (List Nat)) : List (List Nat) → List (List Nat)
  | [] => []
  | l :: ls => if l ∈ seen then dedup seen ls else l :: dedup (l :: seen) ls

/-- int(w * 0.5) for a nonnegative integer width w. -/
def halfOf (w : Nat) : Nat := w / 2

/-- int(w * 0.15) for a nonnegative integer width w. -/
def fifteenPctOf (w : Nat) : Nat := w * 15 / 100

/-- One loop iteration of fake_multi_detections: draws a confidence with
random.uniform(0.55, 0.97) and four coordinates with random.randint.
Iteration i consumes uniform draw i and integer draws 4i .. 4i+3. -/
def fakeDet (w h : Nat) (label : List Nat) (i : Nat) (r : Rng) : Option Detection :=
  let conf := pyRound2 (pyUniform (55/100) (97/100) (r.uniforms i))
  match pyRandint 0 (max 0 (halfOf w)) (r.ints (4 * i)) with
  | none => none
  | some x1 =>
    match pyRandint 0 (max 0 (halfOf h)) (r.ints (4 * i + 1)) with
    | none => none
    | some y1 =>
      match pyRandint (x1 + max 10 (fifteenPctOf w)) w (r.ints (4 * i + 2)) with
      | none => none
      | some x2 =>
        match pyRandint (y1 + max 10 (fifteenPctOf h)) h (r.ints (4 * i + 3)) with
        | none => none
        | some y2 => some { label := label, confidence := conf, bbox := [x1, y1, x2, y2] }

/-- The for-loop of fake_multi_detections: build detections for indices
i, i+1, ... while the fuel counts down. -/
def buildDets (w h : Nat) (unique : List (List Nat)) (r : Rng) : Nat → Nat → Option (List Detection)
  | _, 0 => some []
  | i, k + 1 =>
    match fakeDet w h (unique.getD i []) i r with
    | none => none
    | some d =>
      match buildDets w h unique r (i + 1) k with
      | none => none
      | some rest => some (d :: rest)

/-- fake_multi_detections from app/services/vision.py. -/
def fake_multi_detections (img : Image) (base : List Nat) (r : Rng) : Option (List Detection) :=
  let unique := dedup [] (labelsPool base)
  let n := min 3 unique.length
  buildDets img.width img.height unique r 0 n

/-! ### The MobileNet label-collapsing map of app/models/schemas.py -/

/-- The banana keyword group of ProductClassifier in app/models/schemas.py. -/
def bananaKeywords : List (List Nat) := [str "banana", str "plantain"]

/-- The apple keyword group of ProductClassifier in app/models/schemas.py. -/
def appleKeywords : List (List Nat) :=
  [str "granny smith", str "red delicious", str "golden delicious", str "apple"]

/-- Python substring containment k in lbl: k is a contiguous run of lbl. -/
def containsSub (k : List Nat) : List Nat → Bool
  | [] => k.isPrefixOf []
  | c :: rest => k.isPrefixOf (c :: rest) || containsSub k rest

/-- any(k in lbl for k in keywords). -/
def containsAny (kws : List (List Nat)) (lbl : List Nat) : Bool :=
  kws.any (fun k => containsSub k lbl)

/-- Model of _map_label from app/models/schemas.py: lowercase every fine-grained
class name, return "banana" on the first name holding a banana keyword,
otherwise "apple" on the first name holding an apple keyword, otherwise
"neither". -/
def mapLabel (imagenet_labels : List (List Nat)) : List Nat :=
  let low := imagenet_labels.map pyLower
  match low.find? (containsAny bananaKeywords) with
  | some _ => str "banana"
  | none =>
    match low.find? (containsAny appleKeywords) with
    | some _ => str "apple"
    | none => str "neither"

/-! ### The SQLite-backed product database of app/services/database.py -/

/-- A row of the products table. -/
structure ProductRow where
  product_name : List Nat
  category : List Nat
  aisle : List Nat
  sectionName : List Nat
  price : ℚ
  in_stock : Nat
deriving DecidableEq, Repr

/-- The ProductLocation record returned by lookup. -/
structure ProductLocation where
  product_name : List Nat
  category : List Nat
  aisle : List Nat
  sectionName : List Nat
  price : ℚ
  in_stock : Bool
deriving DecidableEq, Repr

/-- The products table: a list of rows.  SELECT with fetchone returns the
first matching row. -/
def lookup (table : List ProductRow) (product_name : List Nat) : Option ProductLocation :=
  let name := normalizeName product_name
  match table.find? (fun row => row.product_name = name) with
  | none => none
  | some row =>
    some { product_name := row.product_name
           category := row.category
           aisle := row.aisle
           sectionName := row.sectionName
           price := row.price
           in_stock := row.in_stock ≠ 0 }

/-- A row of data/products.csv as read by _ensure_schema_and_seed. -/
structure CsvRow where
  product_name : List Nat
  category : List Nat
  aisle : List Nat
  sectionName : List Nat
  price : ℚ
  stock : List Nat
deriving DecidableEq, Repr

/-- The per-row transformation of _ensure_schema_and_seed: the name is
stripped and lowercased, and stock becomes 1 exactly when the stripped
lowercased value is "true", "1" or "yes". -/
def seedRow (row : CsvRow) : ProductRow :=
  { product_name := pyLower (pyStrip row.product_name)
    category := row.category
    aisle := row.aisle
    sectionName := row.sectionName
    price := row.price
    in_stock :=
      if pyLower (pyStrip row.stock) ∈ [str "true", str "1", str "yes"] then 1 else 0 }

/-- INSERT OR REPLACE on the products table keyed on product_name. -/
def insertOrReplace (table : List ProductRow) (row : ProductRow) : List ProductRow :=
  (table.filter (fun t => t.product_name ≠ row.product_name)) ++ [row]

/-- Seeding an empty table from the CSV rows via INSERT OR REPLACE. -/
def seedTable (csv : List CsvRow) : List ProductRow :=
  (csv.map seedRow).foldl insertOrReplace []

/-! ### The /predict and /api/predict pipelines of app/api/routes.py -/

/-- The location sub-dict of the result payload. -/
structure LocationOut where
  aisle : List Nat
  sectionName : List Nat
deriving DecidableEq, Repr

/-- The meta sub-dict of the result payload. -/
structure MetaOut where
  category : List Nat
  price : ℚ
  in_stock : Bool
deriving DecidableEq, Repr

/-- The result dict built by predict_html and predict_api.  The message
key is only present in the not-found branch, hence an Option. -/
structure ResultPayload where
  predicted_label : List Nat
  confidence : ℚ
  found_in_database : Bool
  message : Option (List Nat)
  location : Option LocationOut
  meta : Option MetaOut
deriving DecidableEq, Repr

/-- An ASCII single quote, written by codepoint to build the message text. -/
def quoteChar : List Nat := [39]

/-- The message of the not-found branch: No location info found for the
quoted label. -/
def notFoundMessage (label : List Nat) : List Nat :=
  str "No location info found for " ++ quoteChar ++ label ++ quoteChar ++ str "."

/-- The content-type guard of process_bytes_for_single_product: a missing
or empty content type, or one that does not start with image/, is invalid. -/
def contentTypeBad : Option (List Nat) → Bool
  | none => true
  | some ct => ct.isEmpty || !((str "image/").isPrefixOf ct)

/-- process_bytes_for_single_product from app/services/vision.py:
validate the content type, decode the bytes (decoding is abstracted as an
Option Image: none models bytes PIL cannot open), then classify. -/
def process_bytes_for_single_product (contentType : Option (List Nat))
    (decoded : Option Image) : Except (List Nat) (Image × List Nat × ℚ) :=
  if contentTypeBad contentType then .error (str "Please upload an image file.")
  else
    match decoded with
    | none => .error (str "Could not open image")
    | some img =>
      let lc := classify_image img
      .ok (img, lc.1, lc.2)

/-- The result-dict construction of predict_html (routes.py, HTML endpoint),
from the predicted label, its confidence and the database lookup. -/
def predictHtmlPayload (table : List ProductRow) (label : List Nat) (conf : ℚ) : ResultPayload :=
  match lookup table label with
  | none =>
    { predicted_label := label
      confidence := conf
      found_in_database := false
      message := some (notFoundMessage label)
      location := none
      meta := none }
  | some info =>
    { predicted_label := label
      confidence := conf
      found_in_database := true
      message := none
      location := some { aisle := info.aisle, sectionName := info.sectionName }
      meta := some { category := info.category, price := info.price, in_stock := info.in_stock } }

/-- The result-dict construction of predict_api (routes.py, JSON endpoint):
a textually identical second copy in the source. -/
def predictApiPayload (table : List ProductRow) (label : List Nat) (conf : ℚ) : ResultPayload :=
  match lookup table label with
  | none =>
    { predicted_label := label
      confidence := conf
      found_in_database := false
      message := some (notFoundMessage label)
      location := none
      meta := none }
  | some info =>
    { predicted_label := label
      confidence := conf
      found_in_database := true
      message := none
      location := some { aisle := info.aisle, sectionName := info.sectionName }
      meta := some { category := info.category, price := info.price, in_stock := info.in_stock } }

/-- The /predict endpoint up to rendering: classification pipeline, then
database lookup, then result dict.  A ValueError becomes an HTTP 400. -/
def predict_html_core (table : List ProductRow) (contentType : Option (List Nat))
    (decoded : Option Image) : Except (List Nat) ResultPayload :=
  match process_bytes_for_single_product contentType decoded with
  | .error e => .error e
  | .ok (_img, label, conf) => .ok (predictHtmlPayload table label conf)

/-- The /api/predict endpoint up to rendering. -/
def predict_api_core (table : List ProductRow) (contentType : Option (List Nat))
    (decoded : Option Image) : Except (List Nat) ResultPayload :=
  match process_bytes_for_single_product contentType decoded with
  | .error e => .error e
  | .ok (_img, label, conf) => .ok (predictApiPayload table label conf)

/-! ### The request log of app/api/routes.py -/

/-- Decimal rendering used to model the numeric f-string fields of the log
line; the exact float formatting is abstracted to the rounded integer of
thousandths. -/
def fmt3 (q : ℚ) : List Nat := str (toString (roundHalfEven (q * 1000)))

/-- The log line built inside _log_request.  In the not-found branch the
payload has location None, and None.get raises AttributeError before any
text is produced; that failed build is the error case. -/
def buildLogLine (ts : List Nat) (r : ResultPayload) : Except (List Nat) (List Nat) :=
  match r.location with
  | none => .error (str "AttributeError")
  | some loc =>
    .ok (ts ++ str " | label=" ++ r.predicted_label ++ str " | conf=" ++ fmt3 r.confidence
      ++ str " | found=" ++ (if r.found_in_database then str "True" else str "False")
      ++ str " | aisle=" ++ loc.aisle ++ str " | section=" ++ loc.sectionName)

/-- The body of the try-block of _log_request: the file write itself may
fail (writeOk false models any I/O error), and building the line may fail. -/
def logAttempt (writeOk : Bool) (log : List (List Nat)) (ts : List Nat)
    (r : ResultPayload) : Except (List Nat) (List (List Nat)) :=
  if !writeOk then .error (str "OSError")
  else
    match buildLogLine ts r with
    | .error e => .error e
    | .ok line => .ok (log ++ [line])

/-- Model of _log_request from app/api/routes.py: every exception of the try-block
is swallowed, leaving the log unchanged; the function always returns. -/
def log_request (writeOk : Bool) (log : List (List Nat)) (ts : List Nat)
    (r : ResultPayload) : List (List Nat) :=
  match logAttempt writeOk log ts r with
  | .ok log' => log'
  | .error _ => log

/-- The /predict endpoint including the logging side effect: the response
is computed first and _log_request then updates the log state. -/
def predictEndpointFull (table : List ProductRow) (contentType : Option (List Nat))
    (decoded : Option Image) (writeOk : Bool) (log : List (List Nat)) (ts : List Nat) :
    Except (List Nat) ResultPayload × List (List Nat) :=
  match predict_html_core table contentType decoded with
  | .error e => (.error e, log)
  | .ok r => (.ok r, log_request writeOk log ts r)

/-! ### draw_detections of app/services/vision.py, over an image heap -/

/-- A heap of PIL image objects; references are list indices.  Image.copy
allocates a fresh object and ImageDraw mutates its target in place. -/
def emptyImage : Image := { width := 0, height := 0, pixels := fun _ _ => 0 }

/-- image.copy(): append a copy of the source object, returning the new
heap and the reference of the fresh object. -/
def heapCopy (heap : List Image) (src : Nat) : List Image × Nat :=
  (heap ++ [heap.getD src emptyImage], heap.length)

/-- In-place mutation of the image object at a reference. -/
def heapMutate (heap : List Image) (ref : Nat) (f : Image → Image) : List Image :=
  heap.set ref (f (heap.getD ref emptyImage))

/-- Membership of a pixel in the outline band of a rectangle of line
width lw. -/
def onOutline (x1 y1 x2 y2 lw x y : Nat) : Bool :=
  x1 ≤ x && x ≤ x2 && y1 ≤ y && y ≤ y2 &&
    (x < x1 + lw || x2 < x + lw || y < y1 + lw || y2 < y + lw)

/-- draw.rectangle with outline colour and width 3. -/
def drawRectOutline (x1 y1 x2 y2 color : Nat) (img : Image) : Image :=
  { img with pixels := fun x y => if onOutline x1 y1 x2 y2 3 x y then color else img.pixels x y }

/-- draw.rectangle with a fill colour: paint the whole box. -/
def drawRectFill (x1 y1 x2 y2 color : Nat) (img : Image) : Image :=
  { img with pixels := fun x y =>
      if x1 ≤ x && x ≤ x2 && y1 ≤ y && y ≤ y2 then color else img.pixels x y }

/-- draw.text: paint the glyph pixels of the text area; the glyph shape is
abstracted by a fixed pixel predicate. -/
def drawText (tx ty color : Nat) (img : Image) : Image :=
  { img with pixels := fun x y =>
      if tx ≤ x && x < tx + 106 && ty ≤ y && y < ty + 14 && (x + y) % 2 = 0
      then color else img.pixels x y }

/-- The per-detection body of the loop of draw_detections: outline box,
then inside a try-block a filled label box followed by text; drawing the
text may raise (textOk false), in which case the filled box already drawn
persists and the exception is swallowed. -/
def drawOneDetection (textOk : Bool) (heap : List Image) (ref : Nat) (det : Detection) :
    List Image :=
  let x1 := det.bbox.getD 0 0
  let y1 := det.bbox.getD 1 0
  let heap1 := heapMutate heap ref (drawRectOutline x1 y1 (det.bbox.getD 2 0) (det.bbox.getD 3 0) 2563)
  let heap2 := heapMutate heap1 ref (drawRectFill x1 (y1 - 16) (x1 + 110) y1 2563)
  if textOk then heapMutate heap2 ref (drawText (x1 + 4) (y1 - 14) 255) else heap2

/-- draw_detections from app/services/vision.py: copy the input image,
draw every detection on the copy in place, return the copy. -/
def draw_detections (heap : List Image) (imgRef : Nat) (dets : List Detection)
    (textOks : Nat → Bool) : List Image × Nat :=
  let hc := heapCopy heap imgRef
  let annotated := hc.2
  let finalHeap :=
    dets.enum.foldl (fun h di => drawOneDetection (textOks di.1) h annotated di.2) hc.1
  (finalHeap, annotated)

/-! ## Helper lemmas -/

theorem roundHalfEven_le {q : ℚ} {n : ℤ} (h : q ≤ (n : ℚ)) : roundHalfEven q ≤ n := by
  unfold roundHalfEven
  have hfl : ⌊q⌋ ≤ n := (Int.floor_mono h).trans_eq (Int.floor_intCast n)
  split_ifs with h1 h2 h3
  · exact hfl
  all_goals
  · have hhalf : (⌊q⌋ : ℚ) + 1/2 ≤ q := by
      have := sub_nonneg.mpr (not_lt.mp h1)
      linarith [not_lt.mp h1]
    have : (⌊q⌋ : ℚ) + 1/2 ≤ (n : ℚ) := hhalf.trans h
    have hlt : (⌊q⌋ : ℚ) < (n : ℚ) := by linarith
    have : ⌊q⌋ < n := by exact_mod_cast hlt
    omega

theorem le_roundHalfEven {q : ℚ} {n : ℤ} (h : (n : ℚ) ≤ q) : n ≤ roundHalfEven q := by
  unfold roundHalfEven
  have hfl : n ≤ ⌊q⌋ := Int.le_floor.mpr h
  split_ifs <;> omega

theorem pyRound2_bounds {q : ℚ} (h0 : 55/100 ≤ q) (h1 : q ≤ 97/100) :
    55/100 ≤ pyRound2 q ∧ pyRound2 q ≤ 97/100 := by
  unfold pyRound2
  have hlo : (55 : ℤ) ≤ roundHalfEven (q * 100) := le_roundHalfEven (by push_cast; linarith)
  have hhi : roundHalfEven (q * 100) ≤ (97 : ℤ) := roundHalfEven_le (by push_cast; linarith)
  have hlo' : (55 : ℚ) ≤ (roundHalfEven (q * 100) : ℚ) := by exact_mod_cast hlo
  have hhi' : (roundHalfEven (q * 100) : ℚ) ≤ (97 : ℚ) := by exact_mod_cast hhi
  constructor <;> [linarith; linarith]

theorem pyUniform_bounds {u : ℚ} (h0 : 0 ≤ u) (h1 : u ≤ 1) :
    55/100 ≤ pyUniform (55/100) (97/100) u ∧ pyUniform (55/100) (97/100) u ≤ 97/100 := by
  unfold pyUniform
  constructor <;> nlinarith

theorem pyRandint_spec (lo hi e : Nat) (h : lo ≤ hi) :
    ∃ v, pyRandint lo hi e = some v ∧ lo ≤ v ∧ v ≤ hi := by
  refine ⟨lo + e % (hi + 1 - lo), ?_, Nat.le_add_right _ _, ?_⟩
  · unfold pyRandint
    rw [if_pos h]
  · have : e % (hi + 1 - lo) < hi + 1 - lo := Nat.mod_lt _ (by omega)
    omega

theorem pyRandint_none {lo hi : Nat} (e : Nat) (h : hi < lo) : pyRandint lo hi e = none := by
  unfold pyRandint
  rw [if_neg (by omega)]

/-! ## Claims -/

/-- C5.  The HTML endpoint /predict and the JSON endpoint /api/predict
compute the same result payload from the same classification function and
the same database lookup; they differ only in rendering. -/
theorem predict_html_api_same_payload (table : List ProductRow)
    (contentType : Option (List Nat)) (decoded : Option Image) :
    predict_html_core table contentType decoded = predict_api_core table contentType decoded := rfl

/-- C1, counterexample.  The classifier actually used by /predict and
/api/predict is the stub of app/model.py: it returns the label "banana"
with confidence 0.95 for every image, so the labels "apple" and "neither"
are never produced and the label is not determined by the image content. -/
theorem classify_image_constant :
    (∀ img : Image, classify_image img = (str "banana", 95/100)) ∧
    str "apple" ≠ str "banana" ∧ str "neither" ≠ str "banana" :=
  ⟨fun _ => rfl, by decide, by decide⟩

theorem process_bytes_ok_label {contentType : Option (List Nat)} {decoded : Option Image}
    {img : Image} {label : List Nat} {conf : ℚ}
    (h : process_bytes_for_single_product contentType decoded = .ok (img, label, conf)) :
    label = str "banana" ∧ conf = 95/100 := by
  unfold process_bytes_for_single_product at h
  split at h
  · exact absurd h (by simp)
  · cases decoded with
    | none => exact absurd h (by simp)
    | some i =>
      simp only [classify_image, stubPredict] at h
      cases h
      exact ⟨rfl, rfl⟩

theorem predictHtmlPayload_fields (table : List ProductRow) (label : List Nat) (conf : ℚ) :
    (predictHtmlPayload table label conf).predicted_label = label ∧
    (predictHtmlPayload table label conf).confidence = conf := by
  unfold predictHtmlPayload
  split <;> exact ⟨rfl, rfl⟩

/-- C1, amended.  For every request accepted by /predict or /api/predict,
the predicted label is the constant output of the stub classifier: it is
always "banana" (one of the three coarse labels) with confidence 0.95,
regardless of the image content. -/
theorem predict_label_always_banana (table : List ProductRow)
    (contentType : Option (List Nat)) (decoded : Option Image) :
    (∀ r, predict_html_core table contentType decoded = .ok r →
      r.predicted_label = str "banana" ∧ r.confidence = 95/100) ∧
    (∀ r, predict_api_core table contentType decoded = .ok r →
      r.predicted_label = str "banana" ∧ r.confidence = 95/100) := by
  have hapi : predict_api_core table contentType decoded
      = predict_html_core table contentType decoded := rfl
  rw [hapi, and_self]
  intro r hr
  unfold predict_html_core at hr
  rcases heq : process_bytes_for_single_product contentType decoded with e | ⟨img, label, conf⟩
  · rw [heq] at hr
    exact absurd hr (by simp)
  · rw [heq] at hr
    obtain ⟨hl, hc⟩ := process_bytes_ok_label heq
    cases hr
    subst hl hc
    exact predictHtmlPayload_fields table _ _

/-- C3.  _map_label returns exactly one of "banana", "apple", "neither";
it returns "banana" exactly when some fine-grained name, lowercased,
holds a banana keyword; otherwise "apple" exactly when some lowercased
name holds an apple keyword; otherwise "neither".  Banana matching takes
precedence over apple regardless of list position. -/
theorem mapLabel_characterization (imagenet_labels : List (List Nat)) :
    (mapLabel imagenet_labels = str "banana" ∨ mapLabel imagenet_labels = str "apple" ∨
      mapLabel imagenet_labels = str "neither") ∧
    (mapLabel imagenet_labels = str "banana" ↔
      ∃ l ∈ imagenet_labels, containsAny bananaKeywords (pyLower l) = true) ∧
    (mapLabel imagenet_labels = str "apple" ↔
      ((∀ l ∈ imagenet_labels, containsAny bananaKeywords (pyLower l) = false) ∧
       ∃ l ∈ imagenet_labels, containsAny appleKeywords (pyLower l) = true)) ∧
    (mapLabel imagenet_labels = str "neither" ↔
      ((∀ l ∈ imagenet_labels, containsAny bananaKeywords (pyLower l) = false) ∧
       (∀ l ∈ imagenet_labels, containsAny appleKeywords (pyLower l) = false))) := by
  have hexB : (∃ l ∈ imagenet_labels, containsAny bananaKeywords (pyLower l) = true) ↔
      ¬ ((imagenet_labels.map pyLower).find? (containsAny bananaKeywords) = none) := by
    rw [List.find?_eq_none]
    simp [List.mem_map]
  have hexA : (∃ l ∈ imagenet_labels, containsAny appleKeywords (pyLower l) = true) ↔
      ¬ ((imagenet_labels.map pyLower).find? (containsAny appleKeywords) = none) := by
    rw [List.find?_eq_none]
    simp [List.mem_map]
  have hallB : (∀ l ∈ imagenet_labels, containsAny bananaKeywords (pyLower l) = false) ↔
      ((imagenet_labels.map pyLower).find? (containsAny bananaKeywords) = none) := by
    rw [List.find?_eq_none]
    simp [List.mem_map]
  have hallA : (∀ l ∈ imagenet_labels, containsAny appleKeywords (pyLower l) = false) ↔
      ((imagenet_labels.map pyLower).find? (containsAny appleKeywords) = none) := by
    rw [List.find?_eq_none]
    simp [List.mem_map]
  rcases hB : (imagenet_labels.map pyLower).find? (containsAny bananaKeywords) with _ | b
  · rcases hA : (imagenet_labels.map pyLower).find? (containsAny appleKeywords) with _ | a
    · have hv : mapLabel imagenet_labels = str "neither" := by
        simp only [mapLabel, hB, hA]
      refine ⟨Or.inr (Or.inr hv), ?_, ?_, ?_⟩
      · rw [hv]
        constructor
        · intro h; exact absurd h (by decide)
        · intro h; rw [hexB] at h; exact absurd hB h
      · rw [hv]
        constructor
        · intro h; exact absurd h (by decide)
        · rintro ⟨-, h⟩; rw [hexA] at h; exact absurd hA h
      · rw [hv]
        exact iff_of_true rfl ⟨hallB.mpr hB, hallA.mpr hA⟩
    · have hv : mapLabel imagenet_labels = str "apple" := by
        simp only [mapLabel, hB, hA]
      refine ⟨Or.inr (Or.inl hv), ?_, ?_, ?_⟩
      · rw [hv]
        constructor
        · intro h; exact absurd h (by decide)
        · intro h; rw [hexB] at h; exact absurd hB h
      · rw [hv]
        refine iff_of_true rfl ⟨hallB.mpr hB, ?_⟩
        rw [hexA, hA]
        simp
      · rw [hv]
        constructor
        · intro h; exact absurd h (by decide)
        · rintro ⟨-, h⟩
          rw [hallA, hA] at h
          exact absurd h (by simp)
  · have hv : mapLabel imagenet_labels = str "banana" := by
      simp only [mapLabel, hB]
    refine ⟨Or.inl hv, ?_, ?_, ?_⟩
    · rw [hv]
      refine iff_of_true rfl ?_
      rw [hexB, hB]
      simp
    · rw [hv]
      constructor
      · intro h; exact absurd h (by decide)
      · rintro ⟨h, -⟩
        rw [hallB, hB] at h
        exact absurd h (by simp)
    · rw [hv]
      constructor
      · intro h; exact absurd h (by decide)
      · rintro ⟨h, -⟩
        rw [hallB, hB] at h
        exact absurd h (by simp)

/-- C7.  Every exception raised inside _log_request is swallowed: the log
update either appends one line or leaves the log unchanged and never
raises, and the response handed to the client is the same whether the log
write succeeds or fails. -/
theorem log_request_never_breaks_response (table : List ProductRow)
    (contentType : Option (List Nat)) (decoded : Option Image)
    (writeOkA writeOkB : Bool) (log : List (List Nat)) (ts : List Nat) :
    (predictEndpointFull table contentType decoded writeOkA log ts).1 =
      (predictEndpointFull table contentType decoded writeOkB log ts).1 ∧
    (∀ writeOk r, log_request writeOk log ts r = log ∨
      ∃ line, log_request writeOk log ts r = log ++ [line]) := by
  constructor
  · unfold predictEndpointFull
    rcases predict_html_core table contentType decoded with e | r <;> rfl
  · intro writeOk r
    unfold log_request logAttempt
    cases writeOk with
    | false => exact Or.inl rfl
    | true =>
      rcases hb : buildLogLine ts r with e | line
      · exact Or.inl rfl
      · exact Or.inr ⟨line, rfl⟩

theorem process_bytes_ok_shape {contentType : Option (List Nat)} {decoded : Option Image}
    {img : Image} {label : List Nat} {conf : ℚ}
    (h : process_bytes_for_single_product contentType decoded = .ok (img, label, conf)) :
    contentTypeBad contentType = false ∧ decoded = some img ∧
    label = (classify_image img).1 ∧ conf = (classify_image img).2 := by
  unfold process_bytes_for_single_product at h
  split at h
  next hg => exact absurd h (by simp)
  next hg =>
    cases decoded with
    | none => exact absurd h (by simp)
    | some i =>
      simp only at h
      cases h
      exact ⟨by simpa using hg, rfl, rfl, rfl⟩

theorem predictHtmlPayload_lookup_props (table : List ProductRow) (label : List Nat) (conf : ℚ) :
    ((predictHtmlPayload table label conf).found_in_database = true ↔
      (lookup table label).isSome = true) ∧
    (∀ info, lookup table label = some info →
      (predictHtmlPayload table label conf).location =
          some { aisle := info.aisle, sectionName := info.sectionName } ∧
      (predictHtmlPayload table label conf).meta =
          some { category := info.category, price := info.price, in_stock := info.in_stock }) ∧
    (lookup table label = none → (predictHtmlPayload table label conf).location = none) := by
  rcases hl : lookup table label with _ | info
  · simp [predictHtmlPayload, hl]
  · simp only [predictHtmlPayload, hl]
    refine ⟨by simp, ?_, ?_⟩
    · intro info2 hinfo
      cases hinfo
      exact ⟨rfl, rfl⟩
    · intro hnone
      simp at hnone

/-- C4.  Every accepted /predict (or /api/predict) request is answered by
the pipeline content-type validation, then classification, then a lookup
keyed on the predicted label, then rendering; found_in_database is true
exactly when the lookup of the predicted label returned a record, and in
that case location carries exactly that record aisle and section. -/
theorem predict_pipeline_found_iff (table : List ProductRow)
    (contentType : Option (List Nat)) (decoded : Option Image) (r : ResultPayload)
    (h : predict_html_core table contentType decoded = .ok r) :
    (∃ img, decoded = some img ∧ contentTypeBad contentType = false ∧
      r = predictHtmlPayload table (classify_image img).1 (classify_image img).2) ∧
    (r.found_in_database = true ↔ (lookup table r.predicted_label).isSome = true) ∧
    (∀ info, lookup table r.predicted_label = some info →
      r.location = some { aisle := info.aisle, sectionName := info.sectionName } ∧
      r.meta = some { category := info.category, price := info.price, in_stock := info.in_stock }) ∧
    (lookup table r.predicted_label = none → r.location = none) := by
  unfold predict_html_core at h
  rcases heq : process_bytes_for_single_product contentType decoded with e | ⟨img, label, conf⟩
  · rw [heq] at h
    exact absurd h (by simp)
  · rw [heq] at h
    obtain ⟨hct, hdec, hlabel, hconf⟩ := process_bytes_ok_shape heq
    cases h
    subst hlabel hconf
    obtain ⟨hlab, hcon⟩ := predictHtmlPayload_fields table (classify_image img).1 (classify_image img).2
    rw [hlab]
    exact ⟨⟨img, hdec, hct, rfl⟩, predictHtmlPayload_lookup_props table _ _⟩

/-- C6.  lookup returns either none, when no row with the normalised name
is in the products table, or the single ProductLocation built from the
unique matching row; the primary key on product_name means at most one
row can ever match a given name. -/
theorem lookup_unique (table : List ProductRow) (name : List Nat)
    (hpk : (table.map (fun row => row.product_name)).Nodup) :
    (lookup table name = none ↔ ∀ row ∈ table, row.product_name ≠ normalizeName name) ∧
    (∀ loc, lookup table name = some loc →
      ∃ row, row ∈ table ∧ row.product_name = normalizeName name ∧
        loc = { product_name := row.product_name, category := row.category, aisle := row.aisle,
                sectionName := row.sectionName, price := row.price,
                in_stock := row.in_stock ≠ 0 } ∧
        ∀ row2 ∈ table, row2.product_name = normalizeName name → row2 = row) ∧
    (table.filter (fun row => row.product_name = normalizeName name)).length ≤ 1 := by
  have hinj : ∀ x ∈ table, ∀ y ∈ table, x.product_name = y.product_name → x = y :=
    fun x hx y hy hxy => List.inj_on_of_nodup_map hpk hx hy hxy
  refine ⟨?_, ?_, ?_⟩
  · rcases hf : table.find? (fun row => row.product_name = normalizeName name) with _ | row
    · simp only [lookup, hf]
      rw [List.find?_eq_none] at hf
      refine iff_of_true (by trivial) ?_
      intro row hrow
      simpa using hf row hrow
    · simp only [lookup, hf]
      refine iff_of_false (by simp) ?_
      intro hall
      have hrow : row.product_name = normalizeName name := by
        simpa using List.find?_some hf
      exact hall row (List.mem_of_find?_eq_some hf) hrow
  · intro loc hloc
    rcases hf : table.find? (fun row => row.product_name = normalizeName name) with _ | row
    · simp only [lookup, hf] at hloc
      exact absurd hloc (by simp)
    · simp only [lookup, hf] at hloc
      have hrow : row.product_name = normalizeName name := by
        simpa using List.find?_some hf
      have hmem : row ∈ table := List.mem_of_find?_eq_some hf
      cases hloc
      exact ⟨row, hmem, hrow, rfl, fun row2 hmem2 hname2 =>
        hinj row2 hmem2 row hmem (hname2.trans hrow.symm)⟩
  · rcases hfl : table.filter (fun row => row.product_name = normalizeName name) with _ | ⟨x, _ | ⟨y, rest⟩⟩
    · rw [hfl]
      simp
    · rw [hfl]
      simp
    · exfalso
      have hnd : (table.filter (fun row => row.product_name = normalizeName name)).Nodup :=
        (hpk.of_map).filter _
      rw [hfl] at hnd
      have hx : x ∈ table ∧ x.product_name = normalizeName name := by
        have hmx : x ∈ table.filter (fun row => row.product_name = normalizeName name) := by
          rw [hfl]; exact List.mem_cons_self _ _
        simpa using List.mem_filter.mp hmx
      have hy : y ∈ table ∧ y.product_name = normalizeName name := by
        have hmy : y ∈ table.filter (fun row => row.product_name = normalizeName name) := by
          rw [hfl]; exact List.mem_cons_of_mem _ (List.mem_cons_self _ _)
        simpa using List.mem_filter.mp hmy
      have hxy : x = y := hinj x hx.1 y hy.1 (hx.2.trans hy.2.symm)
      obtain ⟨hxnot, -⟩ := List.nodup_cons.mp hnd
      subst hxy
      exact hxnot (List.mem_cons_self _ _)

theorem isSpace_lowerChar (c : Nat) : isSpace (lowerChar c) = isSpace c := by
  unfold lowerChar
  split_ifs with h
  · have h1 : isSpace (c + 32) = false := by
      simp [isSpace]
      omega
    have h2 : isSpace c = false := by
      simp [isSpace]
      omega
    rw [h1, h2]
  · rfl

theorem lowerChar_idem (c : Nat) : lowerChar (lowerChar c) = lowerChar c := by
  unfold lowerChar
  split_ifs <;> omega

theorem pyLower_idem (s : List Nat) : pyLower (pyLower s) = pyLower s := by
  induction s with
  | nil => rfl
  | cons c cs ih =>
    simp only [pyLower, List.map_cons] at ih ⊢
    rw [lowerChar_idem, ih]

theorem dropWhile_map_lowerChar (s : List Nat) :
    (s.map lowerChar).dropWhile isSpace = (s.dropWhile isSpace).map lowerChar := by
  induction s with
  | nil => rfl
  | cons c cs ih =>
    simp only [List.map_cons, List.dropWhile_cons, isSpace_lowerChar]
    split_ifs with h
    · exact ih
    · rfl

theorem dropWhile_idem (p : Nat → Bool) (s : List Nat) :
    (s.dropWhile p).dropWhile p = s.dropWhile p := by
  induction s with
  | nil => rfl
  | cons c cs ih =>
    by_cases h : p c
    · simp only [List.dropWhile_cons, if_pos h]
      exact ih
    · simp only [List.dropWhile_cons, if_neg h, if_neg h]

theorem length_dropWhile_le (p : Nat → Bool) (s : List Nat) :
    (s.dropWhile p).length ≤ s.length := by
  induction s with
  | nil => exact Nat.le_refl _
  | cons c cs ih =>
    by_cases h : p c
    · simp only [List.dropWhile_cons, if_pos h, List.length_cons]
      omega
    · simp only [List.dropWhile_cons, if_neg h]
      exact Nat.le_refl _

theorem dropWhile_exists_append (p : Nat → Bool) (s : List Nat) :
    ∃ t, s = t ++ s.dropWhile p := by
  induction s with
  | nil => exact ⟨[], rfl⟩
  | cons c cs ih =>
    by_cases h : p c
    · obtain ⟨t, ht⟩ := ih
      refine ⟨c :: t, ?_⟩
      simp only [List.dropWhile_cons, if_pos h, List.cons_append]
      rw [← ht]
    · exact ⟨[], by simp [List.dropWhile_cons, if_neg h]⟩

theorem dropWhile_eq_self_of_pre {p : Nat → Bool} {u v : List Nat}
    (hu : u.dropWhile p = u) (hpre : ∃ t, v ++ t = u) : v.dropWhile p = v := by
  obtain ⟨t, ht⟩ := hpre
  cases u with
  | nil =>
    have hv : v = [] := by
      cases v with
      | nil => rfl
      | cons a vs => exact absurd ht (by simp)
    rw [hv]
    rfl
  | cons c cs =>
    have hpc : p c = false := by
      by_contra hpc
      rw [Bool.not_eq_false] at hpc
      rw [List.dropWhile_cons, if_pos hpc] at hu
      have := length_dropWhile_le p cs
      rw [hu] at this
      simp at this
    cases v with
    | nil => rfl
    | cons a vs =>
      have hac : a = c := by
        rw [List.cons_append] at ht
        exact (List.cons_eq_cons.mp ht).1
      rw [hac, List.dropWhile_cons, if_neg (by rw [hpc]; exact Bool.false_ne_true)]

theorem pyStrip_idem (s : List Nat) : pyStrip (pyStrip s) = pyStrip s := by
  unfold pyStrip
  set u := s.dropWhile isSpace with hu_def
  have hu : u.dropWhile isSpace = u := dropWhile_idem _ _
  set B := u.reverse.dropWhile isSpace with hB_def
  have hBB : B.dropWhile isSpace = B := dropWhile_idem _ _
  have hBrev_pre : ∃ t, B.reverse ++ t = u := by
    obtain ⟨t, ht⟩ := dropWhile_exists_append isSpace u.reverse
    refine ⟨t.reverse, ?_⟩
    have : u.reverse.reverse = (t ++ B).reverse := by rw [← ht]
    rw [List.reverse_reverse, List.reverse_append] at this
    rw [this]
  have h1 : B.reverse.dropWhile isSpace = B.reverse :=
    dropWhile_eq_self_of_pre hu hBrev_pre
  rw [h1, List.reverse_reverse, hBB]

theorem pyStrip_pyLower_comm (s : List Nat) : pyStrip (pyLower s) = pyLower (pyStrip s) := by
  unfold pyStrip pyLower
  rw [show (s.map lowerChar).dropWhile isSpace = (s.dropWhile isSpace).map lowerChar from
    dropWhile_map_lowerChar s]
  rw [← List.map_reverse, dropWhile_map_lowerChar, ← List.map_reverse]

theorem normalizeName_idem (s : List Nat) : normalizeName (normalizeName s) = normalizeName s := by
  unfold normalizeName
  rw [pyStrip_pyLower_comm, pyStrip_idem, pyLower_idem]

theorem mem_names_insertOrReplace (t : List ProductRow) (row : ProductRow) (k : List Nat)
    (hk : k ∈ t.map (fun x => x.product_name)) :
    k ∈ (insertOrReplace t row).map (fun x => x.product_name) := by
  unfold insertOrReplace
  rw [List.map_append, List.mem_append]
  by_cases heq : k = row.product_name
  · right
    simp [heq]
  · left
    obtain ⟨x, hx, hname⟩ := List.mem_map.mp hk
    refine List.mem_map.mpr ⟨x, ?_, hname⟩
    refine List.mem_filter.mpr ⟨hx, ?_⟩
    simp only [decide_eq_true_eq]
    intro hcontra
    exact heq (hname ▸ hcontra ▸ rfl)

theorem self_mem_names_insertOrReplace (t : List ProductRow) (row : ProductRow) :
    row.product_name ∈ (insertOrReplace t row).map (fun x => x.product_name) := by
  unfold insertOrReplace
  rw [List.map_append, List.mem_append]
  right
  simp

theorem foldl_insertOrReplace_names (rows : List ProductRow) :
    ∀ acc : List ProductRow,
      (∀ k, k ∈ acc.map (fun x => x.product_name) →
        k ∈ (rows.foldl insertOrReplace acc).map (fun x => x.product_name)) ∧
      (∀ r ∈ rows, r.product_name ∈ (rows.foldl insertOrReplace acc).map (fun x => x.product_name)) := by
  induction rows with
  | nil =>
    intro acc
    exact ⟨fun k hk => hk, fun r hr => absurd hr (List.not_mem_nil r)⟩
  | cons r rs ih =>
    intro acc
    constructor
    · intro k hk
      exact (ih (insertOrReplace acc r)).1 k (mem_names_insertOrReplace acc r k hk)
    · intro x hx
      rcases List.mem_cons.mp hx with hxr | hxrs
      · subst hxr
        exact (ih (insertOrReplace acc x)).1 x.product_name
          (self_mem_names_insertOrReplace acc x)
      · exact (ih (insertOrReplace acc r)).2 x hxrs

theorem lookup_isSome_of_mem_names (t : List ProductRow) (q : List Nat)
    (hk : normalizeName q ∈ t.map (fun x => x.product_name)) :
    (lookup t q).isSome = true := by
  obtain ⟨x, hx, hname⟩ := List.mem_map.mp hk
  have hfind : ∀ u : List ProductRow, x ∈ u →
      (u.find? (fun row => row.product_name = normalizeName q)).isSome = true := by
    intro u
    induction u with
    | nil => intro h; exact absurd h (List.not_mem_nil x)
    | cons y ys ih =>
      intro hmem
      by_cases hy : y.product_name = normalizeName q
      · rw [List.find?_cons_of_pos _ (by simpa using hy)]
        rfl
      · rw [List.find?_cons_of_neg _ (by simpa using hy)]
        rcases List.mem_cons.mp hmem with hxy | hxys
        · exact absurd (by rw [← hxy]; exact hname) hy
        · exact ih hxys
  have := hfind t hx
  rcases hf : t.find? (fun row => row.product_name = normalizeName q) with _ | row
  · rw [hf] at this
    simp at this
  · simp only [lookup, hf]
    rfl

/-- C9.  lookup is invariant under the strip-lowercase normalisation of
its argument, and every product seeded from the CSV (whose names are
stored stripped and lowercased) is found regardless of the casing and
surrounding whitespace of the queried name. -/
theorem lookup_case_whitespace_invariant :
    (∀ (table : List ProductRow) (n : List Nat),
      lookup table n = lookup table (pyLower (pyStrip n))) ∧
    (∀ (csv : List CsvRow) (q : List Nat) (row : CsvRow), row ∈ csv →
      pyLower (pyStrip q) = pyLower (pyStrip row.product_name) →
      (lookup (seedTable csv) q).isSome = true) := by
  constructor
  · intro table n
    have hkey : normalizeName (pyLower (pyStrip n)) = normalizeName n := by
      have : pyLower (pyStrip n) = normalizeName n := rfl
      rw [this, normalizeName_idem]
    simp only [lookup, hkey]
  · intro csv q row hrow hq
    apply lookup_isSome_of_mem_names
    have hmem : seedRow row ∈ csv.map seedRow := List.mem_map.mpr ⟨row, hrow, rfl⟩
    have hname : (seedRow row).product_name = pyLower (pyStrip row.product_name) := rfl
    have : (seedRow row).product_name ∈
        (seedTable csv).map (fun x => x.product_name) :=
      (foldl_insertOrReplace_names (csv.map seedRow) []).2 (seedRow row) hmem
    rw [hname] at this
    have hnq : normalizeName q = pyLower (pyStrip row.product_name) := hq
    rw [hnq]
    exact this

theorem dedup_not_mem : ∀ (l seen : List (List Nat)) (a : List Nat),
    a ∈ seen → a ∉ dedup seen l := by
  intro l
  induction l with
  | nil =>
    intro seen a ha
    simp [dedup]
  | cons x xs ih =>
    intro seen a ha
    simp only [dedup]
    split_ifs with hx
    · exact ih seen a ha
    · intro hmem
      rcases List.mem_cons.mp hmem with hax | hatl
      · exact hx (hax ▸ ha)
      · exact ih (x :: seen) a (List.mem_cons_of_mem x ha) hatl

theorem mem_dedup_of : ∀ (l seen : List (List Nat)) (a : List Nat),
    a ∈ l → a ∉ seen → a ∈ dedup seen l := by
  intro l
  induction l with
  | nil =>
    intro seen a ha _
    exact absurd ha (List.not_mem_nil a)
  | cons x xs ih =>
    intro seen a ha hns
    simp only [dedup]
    split_ifs with hx
    · rcases List.mem_cons.mp ha with hax | haxs
      · exact absurd (hax ▸ hx) hns
      · exact ih seen a haxs hns
    · by_cases hax : a = x
      · exact hax ▸ List.mem_cons_self x _
      · rcases List.mem_cons.mp ha with hax2 | haxs
        · exact absurd hax2 hax
        · refine List.mem_cons_of_mem x (ih (x :: seen) a haxs ?_)
          intro hcontra
          rcases List.mem_cons.mp hcontra with h1 | h2
          · exact hax h1
          · exact hns h2

theorem three_le_dedup_length (base : List Nat) : 3 ≤ (dedup [] (labelsPool base)).length := by
  have hsub : ({str "banana", str "apple", str "cereal", str "milk"} : Finset (List Nat)) ⊆
      (dedup [] (labelsPool base)).toFinset := by
    intro x hx
    rw [List.mem_toFinset]
    refine mem_dedup_of _ _ _ ?_ (List.not_mem_nil x)
    simp only [Finset.mem_insert, Finset.mem_singleton] at hx
    rcases hx with h | h | h | h <;> subst h <;> simp [labelsPool]
  have hcard : ({str "banana", str "apple", str "cereal", str "milk"} : Finset (List Nat)).card = 4 := by
    decide
  have hle : ({str "banana", str "apple", str "cereal", str "milk"} : Finset (List Nat)).card ≤
      (dedup [] (labelsPool base)).toFinset.card := Finset.card_le_card hsub
  have hlen := (dedup [] (labelsPool base)).toFinset_card_le
  omega

theorem dedup_head_base (base : List Nat) :
    dedup [] (labelsPool base) = base :: dedup [base] (labelsPool base).tail := by
  simp only [labelsPool, dedup]
  rw [if_neg (List.not_mem_nil base)]

theorem fakeDet_spec (w h : Nat) (label : List Nat) (i : Nat) (r : Rng)
    (hw : halfOf w + max 10 (fifteenPctOf w) ≤ w)
    (hh : halfOf h + max 10 (fifteenPctOf h) ≤ h)
    (hu0 : 0 ≤ r.uniforms i) (hu1 : r.uniforms i ≤ 1) :
    ∃ d, fakeDet w h label i r = some d ∧ d.label = label ∧
      55/100 ≤ d.confidence ∧ d.confidence ≤ 97/100 ∧
      ∃ x1 y1 x2 y2, d.bbox = [x1, y1, x2, y2] ∧
        x1 < x2 ∧ x2 ≤ w ∧ y1 < y2 ∧ y2 ≤ h := by
  obtain ⟨x1, hx1, hx1lo, hx1hi⟩ :=
    pyRandint_spec 0 (max 0 (halfOf w)) (r.ints (4 * i)) (Nat.zero_le _)
  obtain ⟨y1, hy1, hy1lo, hy1hi⟩ :=
    pyRandint_spec 0 (max 0 (halfOf h)) (r.ints (4 * i + 1)) (Nat.zero_le _)
  have hx1w : x1 ≤ halfOf w := by
    have : max 0 (halfOf w) = halfOf w := by omega
    omega
  have hy1h : y1 ≤ halfOf h := by
    have : max 0 (halfOf h) = halfOf h := by omega
    omega
  obtain ⟨x2, hx2, hx2lo, hx2hi⟩ :=
    pyRandint_spec (x1 + max 10 (fifteenPctOf w)) w (r.ints (4 * i + 2))
      (by omega)
  obtain ⟨y2, hy2, hy2lo, hy2hi⟩ :=
    pyRandint_spec (y1 + max 10 (fifteenPctOf h)) h (r.ints (4 * i + 3))
      (by omega)
  obtain ⟨hc0, hc1⟩ := pyUniform_bounds hu0 hu1
  obtain ⟨hr0, hr1⟩ := pyRound2_bounds hc0 hc1
  have heq : fakeDet w h label i r = some
      { label := label,
        confidence := pyRound2 (pyUniform (55/100) (97/100) (r.uniforms i)),
        bbox := [x1, y1, x2, y2] } := by
    simp only [fakeDet, hx1, hy1, hx2, hy2]
  exact ⟨_, heq, rfl, hr0, hr1,
    x1, y1, x2, y2, rfl, by omega, hx2hi, by omega, hy2hi⟩

/-- C2.  When the image dimensions make every random range non-empty and
the raw uniform draws are valid, fake_multi_detections returns exactly 3
detections for every choice of the random draws; the first detection
carries the base label; every confidence lies in [0.55, 0.97]; and every
bounding box [x1, y1, x2, y2] satisfies x1 < x2 ≤ width and
y1 < y2 ≤ height (coordinates are naturals, hence nonnegative). -/
theorem fake_multi_detections_spec (img : Image) (base : List Nat) (r : Rng)
    (hw : halfOf img.width + max 10 (fifteenPctOf img.width) ≤ img.width)
    (hh : halfOf img.height + max 10 (fifteenPctOf img.height) ≤ img.height)
    (hr : ValidRng r) :
    ∃ dets, fake_multi_detections img base r = some dets ∧ dets.length = 3 ∧
      (∃ d0 rest, dets = d0 :: rest ∧ d0.label = base) ∧
      ∀ d ∈ dets, (55/100 ≤ d.confidence ∧ d.confidence ≤ 97/100 ∧
        ∃ x1 y1 x2 y2, d.bbox = [x1, y1, x2, y2] ∧
          x1 < x2 ∧ x2 ≤ img.width ∧ y1 < y2 ∧ y2 ≤ img.height) := by
  obtain ⟨d0, hd0, hd0lab, hd0conf0, hd0conf1, hd0box⟩ :=
    fakeDet_spec img.width img.height ((dedup [] (labelsPool base)).getD 0 []) 0 r hw hh
      (hr 0).1 (hr 0).2
  obtain ⟨d1, hd1, hd1lab, hd1conf0, hd1conf1, hd1box⟩ :=
    fakeDet_spec img.width img.height ((dedup [] (labelsPool base)).getD 1 []) 1 r hw hh
      (hr 1).1 (hr 1).2
  obtain ⟨d2, hd2, hd2lab, hd2conf0, hd2conf1, hd2box⟩ :=
    fakeDet_spec img.width img.height ((dedup [] (labelsPool base)).getD 2 []) 2 r hw hh
      (hr 2).1 (hr 2).2
  have hmin : min 3 (dedup [] (labelsPool base)).length = 3 :=
    Nat.min_eq_left (three_le_dedup_length base)
  refine ⟨[d0, d1, d2], ?_, rfl, ⟨d0, [d1, d2], rfl, ?_⟩, ?_⟩
  · simp only [fake_multi_detections]
    rw [hmin]
    simp only [buildDets, hd0, hd1, hd2]
  · rw [hd0lab, dedup_head_base]
    rfl
  · intro d hd
    rcases List.mem_cons.mp hd with h0 | hd
    · exact h0 ▸ ⟨hd0conf0, hd0conf1, hd0box⟩
    rcases List.mem_cons.mp hd with h1 | hd
    · exact h1 ▸ ⟨hd1conf0, hd1conf1, hd1box⟩
    rcases List.mem_cons.mp hd with h2 | hd
    · exact h2 ▸ ⟨hd2conf0, hd2conf1, hd2box⟩
    · exact absurd hd (List.not_mem_nil d)

/-- C8.  On a small image (5 by 5 pixels) the lower bound of the random
range for x2, namely x1 + max(10, int(width * 0.15)), exceeds the width,
so random.randint raises ValueError for every choice of the random draws:
fake_multi_detections fails on such an image for every base label. -/
theorem fake_multi_detections_small_image_fails (base : List Nat) (r : Rng) :
    fake_multi_detections { width := 5, height := 5, pixels := fun _ _ => 0 } base r = none := by
  have hmin : min 3 (dedup [] (labelsPool base)).length = 3 :=
    Nat.min_eq_left (three_le_dedup_length base)
  simp only [fake_multi_detections]
  rw [hmin]
  obtain ⟨x1, hx1, hx1lo, hx1hi⟩ :=
    pyRandint_spec 0 (max 0 (halfOf 5)) (r.ints 0) (Nat.zero_le _)
  obtain ⟨y1, hy1, hy1lo, hy1hi⟩ :=
    pyRandint_spec 0 (max 0 (halfOf 5)) (r.ints 1) (Nat.zero_le _)
  have hfail : pyRandint (x1 + max 10 (fifteenPctOf 5)) 5 (r.ints 2) = none := by
    apply pyRandint_none
    have : fifteenPctOf 5 = 0 := by decide
    omega
  have hdet : fakeDet 5 5 ((dedup [] (labelsPool base)).getD 0 []) 0 r = none := by
    simp only [fakeDet, Nat.mul_zero, Nat.zero_add, hx1, hy1, hfail]
  simp only [buildDets, hdet]

theorem drawOne_getD_ne (textOk : Bool) (heap : List Image) (ref : Nat) (det : Detection)
    (j : Nat) (hne : j ≠ ref) :
    (drawOneDetection textOk heap ref det).getD j emptyImage = heap.getD j emptyImage := by
  have hset : ∀ (l : List Image) (v : Image), (l.set ref v).getD j emptyImage = l.getD j emptyImage := by
    intro l v
    rw [List.getD_eq_getElem?_getD, List.getD_eq_getElem?_getD,
      List.getElem?_set_ne (fun h => hne h.symm)]
  unfold drawOneDetection heapMutate
  split_ifs <;> simp only [hset]

theorem drawOne_length (textOk : Bool) (heap : List Image) (ref : Nat) (det : Detection) :
    (drawOneDetection textOk heap ref det).length = heap.length := by
  unfold drawOneDetection heapMutate
  split_ifs <;> simp only [List.length_set]

theorem foldl_drawOne_getD_ne (l : List (Nat × Detection)) (textOks : Nat → Bool)
    (ref j : Nat) (hne : j ≠ ref) :
    ∀ heap : List Image,
      (l.foldl (fun h di => drawOneDetection (textOks di.1) h ref di.2) heap).getD j emptyImage =
        heap.getD j emptyImage := by
  induction l with
  | nil => intro heap; rfl
  | cons d ds ih =>
    intro heap
    rw [List.foldl_cons, ih, drawOne_getD_ne _ _ _ _ _ hne]

/-- C10.  draw_detections annotates a copy: the returned annotated image
is a fresh object distinct from the input reference, and the pixels of
the input image object are unchanged by the call. -/
theorem draw_detections_frame (heap : List Image) (imgRef : Nat) (dets : List Detection)
    (textOks : Nat → Bool) (h : imgRef < heap.length) :
    (draw_detections heap imgRef dets textOks).2 ≠ imgRef ∧
    (draw_detections heap imgRef dets textOks).1.getD imgRef emptyImage =
      heap.getD imgRef emptyImage := by
  constructor
  · show heap.length ≠ imgRef
    omega
  · show ((dets.enum.foldl
        (fun hp di => drawOneDetection (textOks di.1) hp heap.length di.2)
        (heap ++ [heap.getD imgRef emptyImage]))).getD imgRef emptyImage =
      heap.getD imgRef emptyImage
    rw [foldl_drawOne_getD_ne _ _ _ _ (by omega)]
    rw [List.getD_eq_getElem?_getD, List.getD_eq_getElem?_getD,
      List.getElem?_append_left h]

/-! ## Concrete witness data -/

/-- A concrete 100 by 100 decoded image. -/
def imgW : Image := { width := 100, height := 100, pixels := fun _ _ => 0 }

/-- A concrete entropy source. -/
def rngW : Rng := { uniforms := fun _ => 1/2, ints := fun _ => 0 }

/-- A concrete products-table row for the banana product. -/
def rowW : ProductRow :=
  { product_name := str "banana", category := str "fruit", aisle := str "7",
    sectionName := str "A", price := 1/2, in_stock := 1 }

/-- A concrete CSV row with mixed case and surrounding whitespace. -/
def csvRowW : CsvRow :=
  { product_name := str " Banana ", category := str "fruit", aisle := str "7",
    sectionName := str "A", price := 1/2, stock := str "True" }

theorem predict_label_always_banana_witness :
    predict_html_core [] (some (str "image/jpeg")) (some imgW) =
      .ok (predictHtmlPayload [] (str "banana") (95/100)) ∧
    ((predictHtmlPayload [] (str "banana") (95/100)).predicted_label = str "banana" ∧
     (predictHtmlPayload [] (str "banana") (95/100)).confidence = 95/100) :=
  ⟨rfl, (predict_label_always_banana [] (some (str "image/jpeg")) (some imgW)).1
    (predictHtmlPayload [] (str "banana") (95/100)) rfl⟩

theorem fake_multi_detections_spec_witness :
    (halfOf imgW.width + max 10 (fifteenPctOf imgW.width) ≤ imgW.width ∧
     halfOf imgW.height + max 10 (fifteenPctOf imgW.height) ≤ imgW.height ∧
     ValidRng rngW) ∧
    (∃ dets, fake_multi_detections imgW (str "banana") rngW = some dets ∧ dets.length = 3 ∧
      (∃ d0 rest, dets = d0 :: rest ∧ d0.label = str "banana") ∧
      ∀ d ∈ dets, (55/100 ≤ d.confidence ∧ d.confidence ≤ 97/100 ∧
        ∃ x1 y1 x2 y2, d.bbox = [x1, y1, x2, y2] ∧
          x1 < x2 ∧ x2 ≤ imgW.width ∧ y1 < y2 ∧ y2 ≤ imgW.height)) :=
  ⟨⟨by decide, by decide, fun k => by norm_num [rngW]⟩,
   fake_multi_detections_spec imgW (str "banana") rngW (by decide) (by decide)
     (fun k => by norm_num [rngW])⟩

theorem predict_pipeline_found_iff_witness :
    predict_html_core [rowW] (some (str "image/jpeg")) (some imgW) =
      .ok (predictHtmlPayload [rowW] (str "banana") (95/100)) ∧
    ((∃ img, some imgW = some img ∧ contentTypeBad (some (str "image/jpeg")) = false ∧
      predictHtmlPayload [rowW] (str "banana") (95/100) =
        predictHtmlPayload [rowW] (classify_image img).1 (classify_image img).2) ∧
    ((predictHtmlPayload [rowW] (str "banana") (95/100)).found_in_database = true ↔
      (lookup [rowW] (predictHtmlPayload [rowW] (str "banana") (95/100)).predicted_label).isSome = true) ∧
    (∀ info, lookup [rowW] (predictHtmlPayload [rowW] (str "banana") (95/100)).predicted_label = some info →
      (predictHtmlPayload [rowW] (str "banana") (95/100)).location =
        some { aisle := info.aisle, sectionName := info.sectionName } ∧
      (predictHtmlPayload [rowW] (str "banana") (95/100)).meta =
        some { category := info.category, price := info.price, in_stock := info.in_stock }) ∧
    (lookup [rowW] (predictHtmlPayload [rowW] (str "banana") (95/100)).predicted_label = none →
      (predictHtmlPayload [rowW] (str "banana") (95/100)).location = none)) :=
  ⟨rfl, predict_pipeline_found_iff [rowW] (some (str "image/jpeg")) (some imgW)
    (predictHtmlPayload [rowW] (str "banana") (95/100)) rfl⟩

theorem lookup_unique_witness :
    ([rowW].map (fun row => row.product_name)).Nodup ∧
    ((lookup [rowW] (str " BANANA ") = none ↔
      ∀ row ∈ [rowW], row.product_name ≠ normalizeName (str " BANANA ")) ∧
    (∀ loc, lookup [rowW] (str " BANANA ") = some loc →
      ∃ row, row ∈ [rowW] ∧ row.product_name = normalizeName (str " BANANA ") ∧
        loc = { product_name := row.product_name, category := row.category, aisle := row.aisle,
                sectionName := row.sectionName, price := row.price,
                in_stock := row.in_stock ≠ 0 } ∧
        ∀ row2 ∈ [rowW], row2.product_name = normalizeName (str " BANANA ") → row2 = row) ∧
    ([rowW].filter (fun row => row.product_name = normalizeName (str " BANANA "))).length ≤ 1) :=
  ⟨by decide, lookup_unique [rowW] (str " BANANA ") (by decide)⟩

theorem lookup_case_whitespace_invariant_witness :
    (csvRowW ∈ [csvRowW] ∧
     pyLower (pyStrip (str "BANANA")) = pyLower (pyStrip csvRowW.product_name)) ∧
    (lookup (seedTable [csvRowW]) (str "BANANA")).isSome = true :=
  ⟨⟨List.mem_cons_self csvRowW [], by decide⟩,
   lookup_case_whitespace_invariant.2 [csvRowW] (str "BANANA") csvRowW
     (List.mem_cons_self csvRowW []) (by decide)⟩

theorem draw_detections_frame_witness :
    0 < [emptyImage].length ∧
    ((draw_detections [emptyImage] 0 [] (fun _ => true)).2 ≠ 0 ∧
     (draw_detections [emptyImage] 0 [] (fun _ => true)).1.getD 0 emptyImage =
       [emptyImage].getD 0 emptyImage) :=
  ⟨by decide, draw_detections_frame [emptyImage] 0 [] (fun _ => true) (by decide)⟩

end Grocery
